import Mathlib

/-!
Verification development for the Jodit 3.3.8 editor core
(src/Jodit.ts and the Panel component). Each TypeScript method that the
claims depend on is shallowly embedded as an executable Lean definition;
DOM side effects are represented as explicit state fields or trace events,
and the event bus results are supplied as environment parameters.
-/

namespace Jodit

/-! ## Panel lock state (modules/view/panel.ts, src/unnamed/part_002)

The field declaration is

  protected __whoLocked: string | false = '';

and the only values ever assigned in the class are a string name and the
empty string, so the state is modelled as a single string where the empty
string means unlocked. -/

structure PanelState where
  whoLocked : String
deriving DecidableEq, Repr

/-- Embeds Panel.isLocked: the arrow function checks whoLocked against the
empty string. -/
def PanelState.isLocked (s : PanelState) : Bool :=
  s.whoLocked ≠ ""

/-- Embeds Panel.lock(name = "any"): if not locked, record the holder and
return true; otherwise return false and leave the state unchanged. -/
def PanelState.lock (s : PanelState) (name : String := "any") :
    PanelState × Bool :=
  if !s.isLocked then ({ whoLocked := name }, true)
  else (s, false)

/-- Embeds Panel.unlock: if locked, clear the holder and return true;
otherwise return false. -/
def PanelState.unlock (s : PanelState) : PanelState × Bool :=
  if s.isLocked then ({ whoLocked := "" }, true)
  else (s, false)

/-! ## Jodit lock wrapper (Jodit.ts lines 617 to 642)

Jodit.lock calls super.lock(name); on success it saves the selection into
the private field __selectionLocked and adds the jodit_disabled class.
Jodit.unlock restores the saved selection on success. The selection
snapshot is abstracted as a value of an arbitrary type. -/

structure JoditLockState (μ : Type) where
  panel : PanelState
  selectionLocked : Option μ
  editorDisabledClass : Bool

/-- Embeds Jodit.lock: defers the locking decision to Panel.lock, and on
success stores the current selection snapshot and sets the disabled
class. -/
def joditLock {μ : Type} (s : JoditLockState μ) (currentSelection : μ)
    (name : String := "any") : JoditLockState μ × Bool :=
  match s.panel.lock name with
  | (p, true) =>
      ({ panel := p, selectionLocked := some currentSelection,
         editorDisabledClass := true }, true)
  | (p, false) => ({ s with panel := p }, false)

/-- Embeds Jodit.unlock: defers to Panel.unlock, and on success removes the
disabled class and restores the saved selection when one exists. -/
def joditUnlock {μ : Type} (s : JoditLockState μ) : JoditLockState μ × Bool :=
  match s.panel.unlock with
  | (p, true) =>
      ({ s with panel := p, editorDisabledClass := false }, true)
  | (p, false) => ({ s with panel := p }, false)

/-! ## Readonly and disabled flags (Jodit.ts lines 785 to 837) -/

structure RoState where
  disabled : Bool
  readonly : Bool
  wasReadOnly : Bool
deriving DecidableEq, Repr

/-- Embeds Jodit.setReadOnly: returns early when the saved __wasReadOnly
flag already equals the requested value; otherwise updates both
__wasReadOnly and options.readonly. -/
def setReadOnlyM (s : RoState) (isReadOnly : Bool) : RoState :=
  if s.wasReadOnly = isReadOnly then s
  else { s with wasReadOnly := isReadOnly, readonly := isReadOnly }

/-- Embeds Jodit.setDisabled: sets options.disabled, reads the saved
__wasReadOnly into a local, calls setReadOnly(isDisabled || readOnly), and
then writes the local back into __wasReadOnly. -/
def setDisabledM (s : RoState) (isDisabled : Bool) : RoState :=
  let s1 : RoState := { s with disabled := isDisabled }
  let readOnly : Bool := s1.wasReadOnly
  let s2 : RoState := setReadOnlyM s1 (isDisabled || readOnly)
  { s2 with wasReadOnly := readOnly }

/-- Embeds Jodit.getDisabled. -/
def getDisabledM (s : RoState) : Bool := s.disabled

/-- Embeds Jodit.getReadOnly. -/
def getReadOnlyM (s : RoState) : Bool := s.readonly

/-! ## Panel destruct (src/unnamed/part_002 lines 46 to 55)

The method body is

  destruct(): any
    if (!this.isDestructed) return;
    Dom.safeRemove(this.container);
    delete this.container;
    super.destruct();

Component.destruct is not part of the provided sources; per the spec
(section 4.6, components report themselves already destructed) it is
modelled as marking the component destructed. -/

structure PanelLife where
  isDestructed : Bool
  hasContainer : Bool
deriving DecidableEq, Repr

/-- Embeds Panel.destruct: the guard returns when isDestructed is false,
so the teardown body (container removal and the super call, the latter
modelled from the spec as marking the component destructed) runs only when
the panel is already marked destructed. -/
def panelDestructM (s : PanelLife) : PanelLife :=
  if !s.isDestructed then s
  else { isDestructed := true, hasContainer := false }

/-! ## Mode state machine (Jodit.ts lines 648 to 750)

The numeric mode constants come from the constants module; their values
are pinned by the indexing expression modeClasses[this.mode - 1] in
setMode together with the class list order (wysiwyg, source, split), and
by the toggleMode cycle: MODE_WYSIWYG = 1, MODE_SOURCE = 2,
MODE_SPLIT = 3. -/

def MODE_WYSIWYG : Nat := 1
def MODE_SOURCE : Nat := 2
def MODE_SPLIT : Nat := 3

def modeClasses : List String :=
  ["jodit_wysiwyg_mode", "jodit_source_mode", "jodit_split_mode"]

/-- Result of firing beforeSetMode on the mutable payload: the handler
chain may return false (cancel), may rewrite data.mode, or may leave the
payload alone. -/
inductive BeforeSetModeRes where
  | cancel
  | keep
  | rewrite (m : Nat)
deriving DecidableEq, Repr

structure ModeState where
  mode : Nat
  storage : Option Nat
  containerClasses : List String
deriving DecidableEq, Repr

/-- Embeds Jodit.getMode. -/
def getModeM (s : ModeState) : Nat := s.mode

/-- Embeds Jodit.setMode. The argument is numeric, so
parseInt(mode.toString(), 10) is the number itself. Fires beforeSetMode
(result supplied by the hook parameter); on cancellation nothing changes.
Otherwise validates data.mode against [MODE_SOURCE, MODE_WYSIWYG,
MODE_SPLIT] with fallback MODE_WYSIWYG, persists the mode when
saveModeInStorage is set, swaps the mode classes on the container, and
fires afterSetMode only when the mode actually changed. The returned Bool
records whether afterSetMode fired. -/
def setModeM (hook : Nat → BeforeSetModeRes) (saveModeInStorage : Bool)
    (s : ModeState) (mode : Nat) : ModeState × Bool :=
  let oldmode := s.mode
  let dataMode := mode
  match hook dataMode with
  | .cancel => (s, false)
  | res =>
      let dm : Nat :=
        match res with
        | .rewrite m => m
        | _ => dataMode
      let newMode : Nat :=
        if dm ∈ [ MODE_SOURCE, MODE_WYSIWYG, MODE_SPLIT ] then dm
        else MODE_WYSIWYG
      let storage := if saveModeInStorage then some newMode else s.storage
      let classes :=
        (s.containerClasses.filter (fun c => c ∉ modeClasses)) ++
          [modeClasses.getD (newMode - 1) ""]
      ({ mode := newMode, storage := storage, containerClasses := classes },
       oldmode ≠ newMode)

/-! ## Command dispatch (Jodit.ts lines 447 to 612)

JavaScript values that flow through the dispatch path (event bus results,
handler return values, the showUI and value arguments) are modelled by a
small dynamic type with a distinguished undefined and a distinguished
false, which are the two values the code tests for. -/

/-- Executable model of the JavaScript String.prototype.toLowerCase calls
performed on command names (the library toLower is an opaque loop, so the
character map is spelled out). -/
def jsToLower (s : String) : String :=
  String.mk (s.data.map Char.toLower)

inductive JVal where
  | vUndef
  | vFalse
  | vTrue
  | vNull
  | vStr (s : String)
deriving DecidableEq, Repr

/-- A registered custom command: either a plain function or an object
with an exec field and optional declared hotkeys (type CustomCommand in
types). Handlers are modelled by their return value; vUndef stands for a
handler that returns undefined. -/
inductive CustomCmd where
  | fn (ret : JVal)
  | obj (ret : JVal) (hotkeys : Option (List String))
deriving DecidableEq, Repr

/-- Return value of a handler (the function itself, or its exec field). -/
def CustomCmd.ret : CustomCmd → JVal
  | .fn r => r
  | .obj r _ => r

/-- The private commands dictionary, keyed by lowercased command name,
each key holding the handlers in registration order. -/
abbrev CommandsTable := List (String × List CustomCmd)

def lookupCommands (t : CommandsTable) (name : String) :
    Option (List CustomCmd) :=
  match t.find? (fun e => e.1 = name) with
  | some e => some e.2
  | none => none

/-- Appends a handler under a key, creating the key when absent; this is
the dictionary update performed by registerCommand. -/
def tableInsert (t : CommandsTable) (name : String) (cmd : CustomCmd) :
    CommandsTable :=
  match lookupCommands t name with
  | none => t ++ [(name, [cmd])]
  | some _ => t.map (fun e => if e.1 = name then (e.1, e.2 ++ [cmd]) else e)

/-- Registration state: the commands dictionary plus the event bus hotkey
bindings, each binding a full event key (normalized alias with the .hotkey
suffix) to the command name whose execCommand call the bound closure
performs. -/
structure RegState where
  table : CommandsTable
  bindings : List (String × String)

/-- Embeds Jodit.registerHotkeyToCommand: normalizes each alias, appends
the .hotkey suffix, detaches any previous handler bound to exactly those
event keys, and binds a closure that calls execCommand(commandName). -/
def registerHotkeyToCommandM (normalizeKey : String → String)
    (bindings : List (String × String)) (hotkeys : List String)
    (commandName : String) : List (String × String) :=
  let shortcuts := hotkeys.map (fun h => normalizeKey h ++ ".hotkey")
  (bindings.filter (fun b => b.1 ∉ shortcuts)) ++
    shortcuts.map (fun k => (k, commandName))

/-- Embeds Jodit.registerCommand: lowercases the name, appends the handler
to its list, and, only when the handler is not a plain function, resolves
hotkeys as options.commandToHotkeys[lowercased] ||
options.commandToHotkeys[original] || command.hotkeys and, when present,
registers them for the lowercased name. -/
def registerCommandM (commandToHotkeys : String → Option (List String))
    (normalizeKey : String → String) (st : RegState)
    (commandNameOriginal : String) (command : CustomCmd) : RegState :=
  let commandName := jsToLower commandNameOriginal
  let table := tableInsert st.table commandName command
  match command with
  | .fn _ => { st with table := table }
  | .obj _ declared =>
      let hotkeys : Option (List String) :=
        (commandToHotkeys commandName).orElse
          (fun _ => (commandToHotkeys commandNameOriginal).orElse
            (fun _ => declared))
      match hotkeys with
      | some hks =>
          { table := table,
            bindings :=
              registerHotkeyToCommandM normalizeKey st.bindings hks
                commandName }
      | none => { st with table := table }

/-- Observable steps of one execCommand call, in order of occurrence. -/
inductive TEvent where
  | beforeCommand (cmd : String) (showUI value : JVal)
  | handlerInvoked (cmd : String) (idx : Nat)
  | focus
  | selectAll
  | nativeExec (cmd : String) (showUI value : JVal)
  | afterCommand (cmd : String) (showUI value : JVal)
  | sync
deriving DecidableEq, Repr

/-- Environment of one execCommand call: the readonly option, the value
the event bus returns for the beforeCommand fire, the registered commands,
and the native editorDocument.execCommand primitive (none models a throw,
which the try/catch swallows). -/
structure ExecEnv where
  readonly : Bool
  beforeCommand : String → JVal → JVal → JVal
  commands : CommandsTable
  native : String → Option JVal

/-- Embeds the loop body of Jodit.execCustomCommands over the handler
list: each handler is invoked in order and the local result is replaced by
every return value that is not undefined. -/
def runHandlers (cmd : String) (hs : List CustomCmd) (idx : Nat)
    (result : JVal) : List TEvent × JVal :=
  match hs with
  | [] => ([], result)
  | h :: rest =>
      let resultCurrent := h.ret
      let result1 := if resultCurrent ≠ JVal.vUndef then resultCurrent
        else result
      let (t, r) := runHandlers cmd rest (idx + 1) result1
      (TEvent.handlerInvoked cmd idx :: t, r)

/-- Embeds Jodit.execCustomCommands: lowercases the name again, and when
the dictionary has an entry, runs every handler in registration order
collecting the last return value that was not undefined; when there is no
entry the function returns undefined without any invocation. -/
def execCustomCommandsM (table : CommandsTable) (commandName : String) :
    List TEvent × JVal :=
  let commandName := jsToLower commandName
  match lookupCommands table commandName with
  | none => ([], JVal.vUndef)
  | some hs => runHandlers commandName hs 0 JVal.vUndef

/-- Embeds Jodit.execCommand (lines 508 to 573). The readonly guard
compares the original, not yet lowercased, command string against
"selectall". After the guard the command is lowercased, beforeCommand
fires, custom handlers run unless beforeCommand returned false, then
unless the running result is false the selection is focused and either the
whole editor is selected (selectall) or the native primitive runs with its
failure swallowed; afterCommand then fires unconditionally and
setEditorValue() synchronizes before the result is returned. -/
def execCommandM (env : ExecEnv) (command : String)
    (showUI : JVal := JVal.vFalse) (value : JVal := JVal.vNull) :
    List TEvent × JVal :=
  if env.readonly = true ∧ command ≠ "selectall" then ([], JVal.vUndef)
  else
    let cmd := jsToLower command
    let r0 := env.beforeCommand cmd showUI value
    let (t1, r1) :=
      if r0 ≠ JVal.vFalse then execCustomCommandsM env.commands cmd
      else ([], r0)
    let (t2, r2) :=
      if r1 ≠ JVal.vFalse then
        if cmd = "selectall" then ([TEvent.focus, TEvent.selectAll], r1)
        else
          match env.native cmd with
          | some v => ([TEvent.focus, TEvent.nativeExec cmd showUI value], v)
          | none => ([TEvent.focus, TEvent.nativeExec cmd showUI value], r1)
      else ([], r1)
    (TEvent.beforeCommand cmd showUI value :: t1 ++ t2 ++
      [TEvent.afterCommand cmd showUI value, TEvent.sync], r2)

/-- First dispatch phase of execCommandM after the guard: the
beforeCommand result decides whether the custom handlers run. Used to
state the unfolding lemma without let bindings; definitionally equal to
the corresponding piece of execCommandM. -/
def execPhase1 (env : ExecEnv) (cmd : String) (showUI value : JVal) :
    List TEvent × JVal :=
  if env.beforeCommand cmd showUI value ≠ JVal.vFalse then
    execCustomCommandsM env.commands cmd
  else ([], env.beforeCommand cmd showUI value)

/-- Second dispatch phase of execCommandM: unless the running result is
false, focus and either select the whole editor (selectall) or attempt
the native primitive. -/
def execPhase2 (env : ExecEnv) (cmd : String) (showUI value : JVal)
    (r1 : JVal) : List TEvent × JVal :=
  if r1 ≠ JVal.vFalse then
    if cmd = "selectall" then ([TEvent.focus, TEvent.selectAll], r1)
    else
      match env.native cmd with
      | some v => ([TEvent.focus, TEvent.nativeExec cmd showUI value], v)
      | none => ([TEvent.focus, TEvent.nativeExec cmd showUI value], r1)
  else ([], r1)

/-! ## Synchronization engine (Jodit.ts lines 212 to 412)

State carried across the mutually recursive pair setEditorValue and
setElementValue: the source element value, the editor innerHTML, and the
private re-entrancy counter __callChangeCount. The pure string processing
performed by getEditorValue with no get hooks registered (stripping the
invisible space characters, stripping selection marker spans, collapsing a
lone br tag to the empty string) is abstracted as the normalize parameter
of the environment; the before and after get-value hooks are taken to be
absent throughout, as in every claim scenario. JavaScript exceptions
thrown by a change handler are modelled by a propagating Bool so that the
try/finally reset of the counter can be stated. -/

def SAFE_COUNT_CHANGE_CALL : Nat := 10

structure EState where
  elementValue : String
  editorValue : String
  callChangeCount : Nat
deriving DecidableEq, Repr

/-- Result the event bus returns for one beforeSetValueToEditor fire:
false aborts, a string replaces the candidate value, undefined changes
nothing. -/
inductive BSRes where
  | retFalse
  | retStr (v : String)
  | retUndef
deriving DecidableEq, Repr

/-- Behaviour of the registered change handlers at the k-th change firing
of a call chain: do nothing, call setEditorValue with a value, or throw. -/
inductive HAct where
  | noop
  | call (v : String)
  | throwEx
deriving DecidableEq, Repr

structure SyncEnv where
  hasEditor : Bool
  elementIsContainer : Bool
  beforeSet : Option String → BSRes
  changeHandler : Nat → HAct
  normalize : String → String

/-- Embeds Jodit.getElementValue for a source element with a value
attribute. -/
def getElementValueM (s : EState) : String := s.elementValue

/-- Embeds Jodit.getEditorValue with no get hooks registered: the native
value (the editor innerHTML when the editor exists, else the element
value) passed through the pure string processing. -/
def getEditorValueM (env : SyncEnv) (s : EState) : String :=
  env.normalize (if env.hasEditor then s.editorValue else s.elementValue)

/-- Embeds the beforeSetValueToEditor step of setEditorValue: none means
the fire returned exactly false and the whole set operation is aborted;
otherwise the (possibly replaced) candidate value is returned. -/
def applyBeforeSet (env : SyncEnv) (value : Option String) :
    Option (Option String) :=
  match env.beforeSet value with
  | .retFalse => none
  | .retStr v => some (some v)
  | .retUndef => some value

/-- Embeds the editor write step of setEditorValue: when a value is given
and differs from the editor innerHTML, setNativeEditorValue writes it. -/
def writeEditor (value : Option String) (s : EState) : EState :=
  match value with
  | some v => if s.editorValue = v then s else { s with editorValue := v }
  | none => s

/-- Embeds the element write step of setElementValue: the element value is
assigned only when the element is not the container (inline mode skips the
write). -/
def writeElement (env : SyncEnv) (v : String) (s : EState) : EState :=
  if env.elementIsContainer then s else { s with elementValue := v }

mutual

/-- Embeds Jodit.setEditorValue (lines 350 to 412). Returns the final
state, the number of change events fired in the whole call tree, and
whether an exception from a change handler is propagating out of the call.
The fuel argument only caps the recursion depth so the definition is
total; every theorem below holds for every fuel. Steps, in source order:
fire beforeSetValueToEditor and abort on false or adopt a returned string;
when no editor exists, degrade to setElementValue when a value was given;
write the value into the editor when it differs; read the element value
and re-read the editor value; when they differ and __callChangeCount is
below SAFE_COUNT_CHANGE_CALL, push the editor value to the element,
increment the counter, and fire change guarded by a try/finally that
resets the counter to zero, the k index threading the position of the
firing within the chain so each handler invocation can act differently. -/
def setEditorValueF (env : SyncEnv) (fuel : Nat) (k : Nat)
    (value : Option String) (s : EState) : EState × Nat × Bool :=
  match fuel with
  | 0 => (s, 0, false)
  | fuel + 1 =>
      match applyBeforeSet env value with
      | none => (s, 0, false)
      | some value1 =>
          if env.hasEditor = false then
            match value1 with
            | some v => setElementValueF env fuel k (some v) s
            | none => (s, 0, false)
          else
            let s1 := writeEditor value1 s
            let oldValue := getElementValueM s1
            let newValue := getEditorValueM env s1
            if oldValue ≠ newValue ∧
                s1.callChangeCount < SAFE_COUNT_CHANGE_CALL then
              match setElementValueF env fuel k (some newValue) s1 with
              | (s2, f1, true) => (s2, f1, true)
              | (s2, f1, false) =>
                  let s3 :=
                    { s2 with callChangeCount := s2.callChangeCount + 1 }
                  match env.changeHandler (k + f1) with
                  | .noop =>
                      ({ s3 with callChangeCount := 0 }, f1 + 1, false)
                  | .throwEx =>
                      ({ s3 with callChangeCount := 0 }, f1 + 1, true)
                  | .call v =>
                      let (s4, f2, t2) :=
                        setEditorValueF env fuel (k + f1 + 1) (some v) s3
                      ({ s4 with callChangeCount := 0 }, f1 + 1 + f2, t2)
            else (s1, 0, false)

/-- Embeds Jodit.setElementValue (lines 320 to 340): with a string
argument, writes it to the source element (unless the element is the
container); with no argument, reads the element value; then calls
setEditorValue only when the value differs from getEditorValue. -/
def setElementValueF (env : SyncEnv) (fuel : Nat) (k : Nat)
    (value : Option String) (s : EState) : EState × Nat × Bool :=
  match fuel with
  | 0 => (s, 0, false)
  | fuel + 1 =>
      let v : String :=
        match value with
        | some v => v
        | none => getElementValueM s
      let s1 : EState :=
        match value with
        | some v => writeElement env v s
        | none => s
      if v ≠ getEditorValueM env s1 then setEditorValueF env fuel k (some v) s1
      else (s1, 0, false)

end

/-! ## Specification-side characterizations used by the theorems -/

/-- Follows the spec wording for the execCustomCommands result: the last
handler return value that is not undefined, or undefined when every
handler returned undefined. Compared against the fold the source
performs. -/
def lastNonUndef (rs : List JVal) (dflt : JVal := JVal.vUndef) : JVal :=
  ((rs.filter (fun r => r ≠ JVal.vUndef)).getLast?).getD dflt

/-- Recognizes the handler invocation steps of a trace. -/
def isHandlerInvoked : TEvent → Bool
  | .handlerInvoked _ _ => true
  | _ => false

/-- Pressing a hotkey: the event bus looks up the binding for the key and
runs the bound closure, which calls execCommand on the recorded command
name with the default showUI and value arguments. -/
def fireBoundHotkey (env : ExecEnv) (bindings : List (String × String))
    (key : String) : List TEvent × JVal :=
  match bindings.find? (fun b => b.1 = key) with
  | some b => execCommandM env b.2
  | none => ([], JVal.vUndef)

/-- Invariant bundle proved for the synchronization pair: given the
initial counter value, the number of fired change events is bounded by
the threshold minus the initial counter, the counter is unchanged when
nothing fired and reset to zero when anything fired, and an escaping
exception implies at least one firing. -/
def SyncOk (c0 : Nat) (r : EState × Nat × Bool) : Prop :=
  r.2.1 ≤ SAFE_COUNT_CHANGE_CALL - c0 ∧
  (r.2.1 = 0 → r.1.callChangeCount = c0) ∧
  (r.2.1 ≠ 0 → r.1.callChangeCount = 0) ∧
  (r.2.2 = true → r.2.1 ≠ 0)

/-! ## Helper lemmas for the synchronization pair -/

theorem writeEditor_callChangeCount (value : Option String) (s : EState) :
    (writeEditor value s).callChangeCount = s.callChangeCount := by
  cases value with
  | none => rfl
  | some v =>
      simp only [writeEditor]
      split <;> rfl

theorem writeElement_callChangeCount (env : SyncEnv) (v : String)
    (s : EState) :
    (writeElement env v s).callChangeCount = s.callChangeCount := by
  simp only [writeElement]
  split <;> rfl

theorem writeElement_editorValue (env : SyncEnv) (v : String) (s : EState) :
    (writeElement env v s).editorValue = s.editorValue := by
  simp only [writeElement]
  split <;> rfl

theorem getEditorValueM_hasEditor (env : SyncEnv)
    (h : env.hasEditor = true) (s : EState) :
    getEditorValueM env s = env.normalize s.editorValue := by
  simp [getEditorValueM, h]

/-- Inside setEditorValue, the setElementValue call receives exactly the
value that getEditorValue just returned, so its own guard value differs
from getEditorValue is false and it never recurses: it fires no change
event, throws nothing, and leaves the editor value and the counter
untouched. -/
theorem setElementValueF_self (env : SyncEnv) (h : env.hasEditor = true)
    (fuel k : Nat) (s : EState) :
    ∃ s2 : EState,
      setElementValueF env fuel k (some (getEditorValueM env s)) s =
        (s2, 0, false) ∧
      s2.callChangeCount = s.callChangeCount ∧
      s2.editorValue = s.editorValue := by
  cases fuel with
  | zero => exact ⟨s, rfl, rfl, rfl⟩
  | succ fuel =>
      refine ⟨writeElement env (getEditorValueM env s) s, ?_,
        writeElement_callChangeCount env _ s,
        writeElement_editorValue env _ s⟩
      have hv : getEditorValueM env
          (writeElement env (getEditorValueM env s) s) =
          getEditorValueM env s := by
        rw [getEditorValueM_hasEditor env h, writeElement_editorValue,
          ← getEditorValueM_hasEditor env h]
      simp [setElementValueF, hv]

/-- One-step unfolding of setEditorValueF at positive fuel, shared by the
proofs below. -/
theorem setEditorValueF_succ_eq (env : SyncEnv) (fuel k : Nat)
    (value : Option String) (s : EState) :
    setEditorValueF env (fuel + 1) k value s =
    match applyBeforeSet env value with
    | none => (s, 0, false)
    | some value1 =>
        if env.hasEditor = false then
          match value1 with
          | some v => setElementValueF env fuel k (some v) s
          | none => (s, 0, false)
        else
          let s1 := writeEditor value1 s
          if getElementValueM s1 ≠ getEditorValueM env s1 ∧
              s1.callChangeCount < SAFE_COUNT_CHANGE_CALL then
            match setElementValueF env fuel k
                (some (getEditorValueM env s1)) s1 with
            | (s2, f1, true) => (s2, f1, true)
            | (s2, f1, false) =>
                let s3 :=
                  { s2 with callChangeCount := s2.callChangeCount + 1 }
                match env.changeHandler (k + f1) with
                | .noop =>
                    ({ s3 with callChangeCount := 0 }, f1 + 1, false)
                | .throwEx =>
                    ({ s3 with callChangeCount := 0 }, f1 + 1, true)
                | .call v =>
                    let r :=
                      setEditorValueF env fuel (k + f1 + 1) (some v) s3
                    ({ r.1 with callChangeCount := 0 },
                      f1 + 1 + r.2.1, r.2.2)
          else (s1, 0, false) := rfl

/-- Core invariant of the synchronization pair, proved for every fuel by
one induction: the change-firing count is bounded by the threshold minus
the entry counter, the counter is unchanged when nothing fired and zero
after any firing, and an escaping handler exception implies a firing. -/
theorem sync_ok_all : ∀ fuel : Nat,
    (∀ (env : SyncEnv) (k : Nat) (value : Option String) (s : EState),
      SyncOk s.callChangeCount (setEditorValueF env fuel k value s)) ∧
    (∀ (env : SyncEnv) (k : Nat) (value : Option String) (s : EState),
      SyncOk s.callChangeCount (setElementValueF env fuel k value s)) := by
  intro fuel
  induction fuel with
  | zero =>
      constructor <;> intro env k value s <;>
        simp [setEditorValueF, setElementValueF, SyncOk]
  | succ fuel ih =>
      obtain ⟨ih1, ih2⟩ := ih
      have hElem : ∀ (env : SyncEnv) (k : Nat) (value : Option String)
          (s : EState),
          SyncOk s.callChangeCount
            (setElementValueF env (fuel + 1) k value s) := by
        intro env k value s
        rcases value with _ | v
        · rw [show setElementValueF env (fuel + 1) k none s =
              if getElementValueM s ≠ getEditorValueM env s then
                setEditorValueF env fuel k (some (getElementValueM s)) s
              else (s, 0, false) from rfl]
          split
          · exact ih1 env k _ s
          · simp [SyncOk]
        · rw [show setElementValueF env (fuel + 1) k (some v) s =
              if v ≠ getEditorValueM env (writeElement env v s) then
                setEditorValueF env fuel k (some v) (writeElement env v s)
              else (writeElement env v s, 0, false) from rfl]
          split
          · have := ih1 env k (some v) (writeElement env v s)
            rwa [writeElement_callChangeCount] at this
          · simp only [SyncOk]
            refine ⟨by omega, fun _ => writeElement_callChangeCount env v s,
              fun hf => absurd rfl hf, fun ht => by cases ht⟩
      refine ⟨?_, hElem⟩
      intro env k value s
      have hstep := setEditorValueF_succ_eq env fuel k value s
      rw [hstep]
      rcases hbs : applyBeforeSet env value with _ | value1
      · simp [SyncOk]
      · simp only []
        by_cases he : env.hasEditor = false
        · rw [if_pos he]
          rcases value1 with _ | v
          · simp [SyncOk]
          · exact ih2 env k (some v) s
        · rw [if_neg he]
          have he' : env.hasEditor = true := by
            cases h : env.hasEditor
            · exact absurd h he
            · rfl
          by_cases hg : getElementValueM (writeEditor value1 s) ≠
              getEditorValueM env (writeEditor value1 s) ∧
              (writeEditor value1 s).callChangeCount <
                SAFE_COUNT_CHANGE_CALL
          · rw [if_pos hg]
            obtain ⟨s2, heq, hc2, _⟩ :=
              setElementValueF_self env he' fuel k (writeEditor value1 s)
            rw [heq]
            simp only []
            have hcnt : s2.callChangeCount = s.callChangeCount := by
              rw [hc2, writeEditor_callChangeCount]
            have hlt : s.callChangeCount < SAFE_COUNT_CHANGE_CALL := by
              have := hg.2
              rwa [writeEditor_callChangeCount] at this
            rcases hch : env.changeHandler (k + 0) with _ | v | _
            · unfold SyncOk
              have h10 : SAFE_COUNT_CHANGE_CALL = 10 := rfl
              refine ⟨?_, ?_, ?_, ?_⟩
              · show 0 + 1 ≤ SAFE_COUNT_CHANGE_CALL - s.callChangeCount
                rw [h10] at hlt ⊢
                omega
              · intro hf
                simp at hf
              · intro _
                rfl
              · intro ht
                simp at ht
            · have hrec := ih1 env (k + 0 + 1) (some v)
                { s2 with callChangeCount := s2.callChangeCount + 1 }
              have h10 : SAFE_COUNT_CHANGE_CALL = 10 := rfl
              have hb : (setEditorValueF env fuel (k + 0 + 1) (some v)
                  { s2 with
                    callChangeCount := s2.callChangeCount + 1 }).2.1 ≤
                  SAFE_COUNT_CHANGE_CALL - (s2.callChangeCount + 1) :=
                hrec.1
              unfold SyncOk
              refine ⟨?_, ?_, ?_, ?_⟩
              · show 0 + 1 + (setEditorValueF env fuel (k + 0 + 1) (some v)
                    { s2 with
                      callChangeCount := s2.callChangeCount + 1 }).2.1 ≤
                  SAFE_COUNT_CHANGE_CALL - s.callChangeCount
                rw [h10] at hb hlt ⊢
                omega
              · show 0 + 1 + (setEditorValueF env fuel (k + 0 + 1) (some v)
                    { s2 with
                      callChangeCount := s2.callChangeCount + 1 }).2.1 = 0 →
                  (0 : Nat) = s.callChangeCount
                intro hf
                omega
              · intro _
                rfl
              · show _ = true →
                  0 + 1 + (setEditorValueF env fuel (k + 0 + 1) (some v)
                    { s2 with
                      callChangeCount := s2.callChangeCount + 1 }).2.1 ≠ 0
                intro _
                omega
            · unfold SyncOk
              have h10 : SAFE_COUNT_CHANGE_CALL = 10 := rfl
              refine ⟨?_, ?_, ?_, ?_⟩
              · show 0 + 1 ≤ SAFE_COUNT_CHANGE_CALL - s.callChangeCount
                rw [h10] at hlt ⊢
                omega
              · intro hf
                simp at hf
              · intro _
                rfl
              · intro _
                simp
          · rw [if_neg hg]
            simp only [SyncOk]
            exact ⟨by omega, fun _ => writeEditor_callChangeCount value1 s,
              fun hf => absurd rfl hf, fun ht => by cases ht⟩

/-- C1: for every setEditorValue call, change fires only when the source
element value and the re-read editor value differ and the re-entrancy
counter is below SAFE_COUNT_CHANGE_CALL = 10; a change handler that itself
calls setEditorValue with a different value each time causes at most the
threshold of recursive change firings for a single outer call (count
bounded by the threshold minus the entry counter); and the try/finally
resets the counter to zero whenever any change fired, even when a handler
throws. -/
theorem C1_change_recursion_guard (env : SyncEnv) (fuel k : Nat)
    (value : Option String) (s : EState) :
    (setEditorValueF env fuel k value s).2.1 ≤
      SAFE_COUNT_CHANGE_CALL - s.callChangeCount ∧
    ((setEditorValueF env fuel k value s).2.1 ≠ 0 →
      (setEditorValueF env fuel k value s).1.callChangeCount = 0) ∧
    ((setEditorValueF env fuel k value s).2.2 = true →
      (setEditorValueF env fuel k value s).1.callChangeCount = 0) ∧
    (∀ value1, applyBeforeSet env value = some value1 →
      env.hasEditor = true →
      (getEditorValueM env (writeEditor value1 s) =
          getElementValueM (writeEditor value1 s) ∨
        ¬ (writeEditor value1 s).callChangeCount < SAFE_COUNT_CHANGE_CALL) →
      (setEditorValueF env fuel k value s).2.1 = 0) := by
  obtain ⟨hb, _, hnz, hth⟩ := (sync_ok_all fuel).1 env k value s
  refine ⟨hb, hnz, fun ht => hnz (hth ht), ?_⟩
  intro value1 hbs he hguard
  cases fuel with
  | zero => rfl
  | succ fuel =>
      have hstep := setEditorValueF_succ_eq env fuel k value s
      have hng : ¬ (getElementValueM (writeEditor value1 s) ≠
          getEditorValueM env (writeEditor value1 s) ∧
          (writeEditor value1 s).callChangeCount <
            SAFE_COUNT_CHANGE_CALL) := by
        rcases hguard with hguard | hguard
        · intro hc
          exact hc.1 hguard.symm
        · intro hc
          exact hguard hc.2
      rw [hstep, hbs]
      simp only []
      rw [if_neg (by rw [he]; simp), if_neg hng]

/-- C6: when a beforeSetValueToEditor handler returns exactly false,
setEditorValue aborts without touching the editor or the source element
(the state is returned unchanged, no change fires, nothing throws), so a
subsequent getEditorValue returns the same value as before the call. -/
theorem C6_beforeSet_false_aborts (env : SyncEnv) (fuel k : Nat)
    (value : Option String) (s : EState)
    (h : env.beforeSet value = BSRes.retFalse) :
    setEditorValueF env fuel k value s = (s, 0, false) ∧
    getEditorValueM env (setEditorValueF env fuel k value s).1 =
      getEditorValueM env s := by
  have habs : applyBeforeSet env value = none := by
    simp [applyBeforeSet, h]
  have hmain : setEditorValueF env fuel k value s = (s, 0, false) := by
    cases fuel with
    | zero => rfl
    | succ fuel =>
        rw [setEditorValueF_succ_eq env fuel k value s, habs]
  exact ⟨hmain, by rw [hmain]⟩

/-- Witness for C1 at concrete inputs: a handler that calls back with a
fresh value each firing, starting from counter zero, and a cancelled
firing when the values already agree. -/
theorem C1_change_recursion_guard_witness :
    (setEditorValueF
        ⟨true, false, fun _ => BSRes.retUndef,
          fun k => HAct.call (toString k), fun v => v⟩ 40 0 (some "seed")
        ⟨"", "", 0⟩).2.1 ≤ SAFE_COUNT_CHANGE_CALL - 0 ∧
    (setEditorValueF
        ⟨true, false, fun _ => BSRes.retUndef, fun _ => HAct.noop,
          fun v => v⟩ 5 0 none ⟨"a", "a", 0⟩).2.1 = 0 :=
  ⟨(C1_change_recursion_guard _ 40 0 (some "seed") ⟨"", "", 0⟩).1,
   (C1_change_recursion_guard _ 5 0 none ⟨"a", "a", 0⟩).2.2.2 none rfl rfl
     (Or.inl rfl)⟩

/-- Witness for C6 at a concrete input: a bus whose
beforeSetValueToEditor fire returns false leaves the state untouched. -/
theorem C6_beforeSet_false_aborts_witness :
    setEditorValueF
        ⟨true, false, fun _ => BSRes.retFalse, fun _ => HAct.noop,
          fun v => v⟩ 5 0 (some "new") ⟨"old", "old", 0⟩ =
      (⟨"old", "old", 0⟩, 0, false) ∧
    getEditorValueM
        ⟨true, false, fun _ => BSRes.retFalse, fun _ => HAct.noop,
          fun v => v⟩
        (setEditorValueF
          ⟨true, false, fun _ => BSRes.retFalse, fun _ => HAct.noop,
            fun v => v⟩ 5 0 (some "new") ⟨"old", "old", 0⟩).1 =
      getEditorValueM
        ⟨true, false, fun _ => BSRes.retFalse, fun _ => HAct.noop,
          fun v => v⟩ ⟨"old", "old", 0⟩ :=
  C6_beforeSet_false_aborts _ 5 0 (some "new") ⟨"old", "old", 0⟩ rfl

/-- C8: a component is locked by at most one holder at a time: lock on an
unlocked component returns true and records the caller as the sole holder,
lock while locked returns false and leaves the holder unchanged, unlock on
a locked component returns true and clears the holder, unlock on an
unlocked component returns false; the Jodit subclass defers the decision
to the Panel base class, returning the same Bool. -/
theorem C8_lock_exclusive (s : PanelState) (a b : String)
    {μ : Type} (j : JoditLockState μ) (sel : μ) :
    (s.isLocked = false → s.lock a = ({ whoLocked := a }, true)) ∧
    (s.isLocked = true → s.lock b = (s, false)) ∧
    (s.isLocked = true → s.unlock = ({ whoLocked := "" }, true)) ∧
    (s.isLocked = false → s.unlock = (s, false)) ∧
    (joditLock j sel a).2 = (j.panel.lock a).2 ∧
    (joditUnlock j).2 = j.panel.unlock.2 := by
  refine ⟨fun h => by simp [PanelState.lock, h],
    fun h => by simp [PanelState.lock, h],
    fun h => by simp [PanelState.unlock, h],
    fun h => by simp [PanelState.unlock, h], ?_, ?_⟩
  · rcases hl : j.panel.lock a with ⟨p, b1⟩
    cases b1 <;> simp [joditLock, hl]
  · rcases hl : j.panel.unlock with ⟨p, b1⟩
    cases b1 <;> simp [joditUnlock, hl]

/-- Witness for C8 at concrete states: lock then a second lock fails,
unlock succeeds, unlock while unlocked fails. -/
theorem C8_lock_exclusive_witness :
    (⟨""⟩ : PanelState).lock "a" = (⟨"a"⟩, true) ∧
    (⟨"a"⟩ : PanelState).lock "b" = (⟨"a"⟩, false) ∧
    (⟨"a"⟩ : PanelState).unlock = (⟨""⟩, true) ∧
    (⟨""⟩ : PanelState).unlock = (⟨""⟩, false) :=
  ⟨(C8_lock_exclusive ⟨""⟩ "a" "b"
      (⟨⟨""⟩, none, false⟩ : JoditLockState Nat) 0).1 (by decide),
   (C8_lock_exclusive ⟨"a"⟩ "a" "b"
      (⟨⟨""⟩, none, false⟩ : JoditLockState Nat) 0).2.1 (by decide),
   (C8_lock_exclusive ⟨"a"⟩ "a" "b"
      (⟨⟨""⟩, none, false⟩ : JoditLockState Nat) 0).2.2.1 (by decide),
   (C8_lock_exclusive ⟨""⟩ "a" "b"
      (⟨⟨""⟩, none, false⟩ : JoditLockState Nat) 0).2.2.2.1 (by decide)⟩

/-- C9: starting from an instance that is neither readonly nor disabled,
setDisabled(true) forces readonly on, and setDisabled(false) leaves
getDisabled() false but getReadOnly() true, because setReadOnly(false)
returns early when the saved __wasReadOnly flag (restored to false by the
first call) already equals the requested value. -/
theorem C9_disable_enable_leaves_readonly :
    setDisabledM ⟨false, false, false⟩ true = ⟨true, true, false⟩ ∧
    setDisabledM ⟨true, true, false⟩ false = ⟨false, true, false⟩ ∧
    getDisabledM
      (setDisabledM (setDisabledM ⟨false, false, false⟩ true) false) =
      false ∧
    getReadOnlyM
      (setDisabledM (setDisabledM ⟨false, false, false⟩ true) false) =
      true ∧
    setReadOnlyM ⟨false, true, false⟩ false = ⟨false, true, false⟩ := by
  decide

/-- C10: Panel.destruct on a live (not yet destructed) panel returns
immediately without removing the container or changing any state, because
the guard is inverted; the teardown body runs only when the panel is
already marked destructed. -/
theorem C10_destruct_guard_inverted (s : PanelLife) :
    (s.isDestructed = false → panelDestructM s = s) ∧
    (s.isDestructed = true →
      (panelDestructM s).hasContainer = false ∧
      (panelDestructM s).isDestructed = true) := by
  constructor <;> intro h <;> simp [panelDestructM, h]

/-- Witness for C10 at concrete states: a live panel with a container is
returned unchanged; an already destructed panel loses its container. -/
theorem C10_destruct_guard_inverted_witness :
    panelDestructM ⟨false, true⟩ = ⟨false, true⟩ ∧
    (panelDestructM ⟨true, true⟩).hasContainer = false :=
  ⟨(C10_destruct_guard_inverted ⟨false, true⟩).1 rfl,
   ((C10_destruct_guard_inverted ⟨true, true⟩).2 rfl).1⟩

/-- C5: with no beforeSetMode handler cancelling or rewriting the payload,
setMode(m) for m among MODE_SOURCE, MODE_WYSIWYG, MODE_SPLIT makes a
subsequent getMode() return m, and setMode with any other value makes
getMode() return MODE_WYSIWYG. -/
theorem C5_setMode_validation (hook : Nat → BeforeSetModeRes) (save : Bool)
    (s : ModeState) (m : Nat) (h : hook m = BeforeSetModeRes.keep) :
    (m ∈ [ MODE_SOURCE, MODE_WYSIWYG, MODE_SPLIT ] →
      getModeM (setModeM hook save s m).1 = m) ∧
    (m ∉ [ MODE_SOURCE, MODE_WYSIWYG, MODE_SPLIT ] →
      getModeM (setModeM hook save s m).1 = MODE_WYSIWYG) := by
  simp only [setModeM, h]
  constructor <;> intro hm <;> simp [getModeM, hm]

/-- Witness for C5 at concrete inputs: a valid mode (MODE_SOURCE = 2) is
adopted and an invalid one (7) falls back to MODE_WYSIWYG = 1. -/
theorem C5_setMode_validation_witness :
    getModeM (setModeM (fun _ => BeforeSetModeRes.keep) false
      ⟨1, none, []⟩ 2).1 = 2 ∧
    getModeM (setModeM (fun _ => BeforeSetModeRes.keep) false
      ⟨1, none, []⟩ 7).1 = MODE_WYSIWYG :=
  ⟨(C5_setMode_validation (fun _ => BeforeSetModeRes.keep) false
      ⟨1, none, []⟩ 2 rfl).1 (by decide),
   (C5_setMode_validation (fun _ => BeforeSetModeRes.keep) false
      ⟨1, none, []⟩ 7 rfl).2 (by decide)⟩

/-! ## Helper lemmas for command dispatch -/

/-- Unfolding of execCommandM when the readonly guard does not fire,
stated through the two phase functions (definitionally the destructuring
lets of the definition). -/
theorem execCommandM_not_guarded (env : ExecEnv) (command : String)
    (showUI value : JVal)
    (h : ¬(env.readonly = true ∧ command ≠ "selectall")) :
    execCommandM env command showUI value =
      (TEvent.beforeCommand (jsToLower command) showUI value ::
        (execPhase1 env (jsToLower command) showUI value).1 ++
        (execPhase2 env (jsToLower command) showUI value
          (execPhase1 env (jsToLower command) showUI value).2).1 ++
        [TEvent.afterCommand (jsToLower command) showUI value,
         TEvent.sync],
       (execPhase2 env (jsToLower command) showUI value
         (execPhase1 env (jsToLower command) showUI value).2).2) := by
  unfold execCommandM execPhase1 execPhase2
  rw [if_neg h]

/-- Helper: prepending an element shifts the getLast? fallback. -/
theorem getLast?_cons_getD {α : Type} (r : α) (l : List α) (seed : α) :
    ((r :: l).getLast?).getD seed = (l.getLast?).getD r := by
  cases l with
  | nil => rfl
  | cons y t =>
      rw [List.getLast?_cons_cons]
      cases h : (y :: t).getLast? with
      | none =>
          rw [List.getLast?_eq_none_iff] at h
          cases h
      | some x => rfl

/-- The trace and result of the handler loop: one invocation step per
handler in list order, and the fold that keeps every return value that is
not undefined. -/
theorem runHandlers_spec (cmd : String) (hs : List CustomCmd) :
    ∀ (idx : Nat) (result : JVal),
    runHandlers cmd hs idx result =
      ((List.range hs.length).map
         (fun i => TEvent.handlerInvoked cmd (idx + i)),
       (hs.map CustomCmd.ret).foldl
         (fun acc r => if r ≠ JVal.vUndef then r else acc) result) := by
  induction hs with
  | nil => intro idx result; rfl
  | cons h t ih =>
      intro idx result
      rw [runHandlers, ih (idx + 1)]
      have hlist : (List.range (h :: t).length).map
            (fun i => TEvent.handlerInvoked cmd (idx + i)) =
          TEvent.handlerInvoked cmd idx ::
            (List.range t.length).map
              (fun i => TEvent.handlerInvoked cmd (idx + 1 + i)) := by
        rw [List.length_cons, List.range_succ_eq_map, List.map_cons,
          List.map_map]
        refine congrArg₂ List.cons (by rw [Nat.add_zero]) ?_
        apply List.map_congr_left
        intro i _
        simp only [Function.comp_apply, Nat.succ_eq_add_one]
        congr 1
        omega
      rw [hlist]
      rfl

/-- The fold that keeps every value that is not undefined computes the
last such value, with the accumulator seed as the fallback. -/
theorem foldl_eq_lastNonUndef (rs : List JVal) :
    ∀ seed : JVal,
    rs.foldl (fun acc r => if r ≠ JVal.vUndef then r else acc) seed =
      ((rs.filter (fun r => r ≠ JVal.vUndef)).getLast?).getD seed := by
  induction rs with
  | nil => intro seed; rfl
  | cons r rs ih =>
      intro seed
      by_cases hr : r = JVal.vUndef
      · subst hr
        rw [List.foldl_cons, ih]
        simp [List.filter_cons]
      · rw [List.foldl_cons, if_pos hr, ih, List.filter_cons]
        rw [if_pos (by simpa using hr)]
        rw [getLast?_cons_getD]

/-- Helper: the last element of a list ending in a two element list. -/
theorem getLast?_append_pair {α : Type} (l : List α) (a b : α) :
    (l ++ [a, b]).getLast? = some b := by
  have h : l ++ [a, b] = (l ++ [a]) ++ [b] := by simp
  rw [h, List.getLast?_concat]

/-- C2 counterexample: on a readonly instance with a handler registered
for selectall, execCommand("SELECTALL") fires nothing and returns
undefined (the readonly guard compares the raw string before lowercasing),
while execCommand("selectall") does execute; so not every spelling of
selectall bypasses the readonly guard. -/
theorem C2_uppercase_selectall_counterexample :
    jsToLower "SELECTALL" = "selectall" ∧
    execCommandM
        ⟨true, fun _ _ _ => JVal.vUndef,
          [("selectall", [CustomCmd.fn JVal.vUndef])], fun _ => none⟩
        "SELECTALL" JVal.vFalse JVal.vNull = ([], JVal.vUndef) ∧
    (execCommandM
        ⟨true, fun _ _ _ => JVal.vUndef,
          [("selectall", [CustomCmd.fn JVal.vUndef])], fun _ => none⟩
        "selectall" JVal.vFalse JVal.vNull).1 ≠ [] := by
  decide

/-- C2 amended: execCommand lowercases the command only after the
readonly guard, so when the instance is readonly only the exact spelling
"selectall" executes; any other command string (including other casings of
selectall) returns immediately without firing beforeCommand or
afterCommand and without invoking any handler; dispatch itself is
case-insensitive (two spellings with the same lowercase form behave
identically on a non-readonly instance), and a "selectall" call always
proceeds past the guard, firing beforeCommand first and the synchronizing
step last. -/
theorem C2_readonly_guard_amended (env : ExecEnv) (command : String)
    (showUI value : JVal) :
    (env.readonly = true → command ≠ "selectall" →
      execCommandM env command showUI value = ([], JVal.vUndef)) ∧
    (∃ rest, (execCommandM env "selectall" showUI value).1 =
        TEvent.beforeCommand "selectall" showUI value :: rest ∧
        (execCommandM env "selectall" showUI value).1.getLast? =
          some TEvent.sync) ∧
    (∀ c2 : String, env.readonly = false → jsToLower command = jsToLower c2 →
      execCommandM env command showUI value =
        execCommandM env c2 showUI value) := by
  refine ⟨?_, ?_, ?_⟩
  · intro h1 h2
    unfold execCommandM
    rw [if_pos ⟨h1, h2⟩]
  · have hsel : jsToLower "selectall" = "selectall" := rfl
    rw [execCommandM_not_guarded env "selectall" showUI value (by simp),
      hsel]
    exact ⟨_, rfl, getLast?_append_pair _ _ _⟩
  · intro c2 hr hlow
    rw [execCommandM_not_guarded env command showUI value (by simp [hr]),
      execCommandM_not_guarded env c2 showUI value (by simp [hr]), hlow]

/-- Witness for C2 amended at concrete inputs: a readonly instance drops
"bold" entirely, and "FOO" and "foo" dispatch identically when not
readonly. -/
theorem C2_readonly_guard_amended_witness :
    execCommandM ⟨true, fun _ _ _ => JVal.vUndef, [], fun _ => none⟩
      "bold" JVal.vFalse JVal.vNull = ([], JVal.vUndef) ∧
    execCommandM ⟨false, fun _ _ _ => JVal.vUndef, [], fun _ => none⟩
      "FOO" JVal.vFalse JVal.vNull =
      execCommandM ⟨false, fun _ _ _ => JVal.vUndef, [], fun _ => none⟩
        "foo" JVal.vFalse JVal.vNull :=
  ⟨(C2_readonly_guard_amended
      ⟨true, fun _ _ _ => JVal.vUndef, [], fun _ => none⟩ "bold"
      JVal.vFalse JVal.vNull).1 rfl (by decide),
   (C2_readonly_guard_amended
      ⟨false, fun _ _ _ => JVal.vUndef, [], fun _ => none⟩ "FOO"
      JVal.vFalse JVal.vNull).2.2 "foo" rfl (by decide)⟩

/-- C3: on a non-readonly instance, when the beforeCommand fire returns
false, neither custom handlers nor the native phase run, yet afterCommand
still fires with the same lowercased command and the same showUI and value
arguments, and the synchronizing setEditorValue() step is the last action
before the call returns false. -/
theorem C3_beforeCommand_false_skips_execution (env : ExecEnv)
    (command : String) (showUI value : JVal) (hr : env.readonly = false)
    (hb : env.beforeCommand (jsToLower command) showUI value = JVal.vFalse) :
    execCommandM env command showUI value =
      ([TEvent.beforeCommand (jsToLower command) showUI value,
        TEvent.afterCommand (jsToLower command) showUI value, TEvent.sync],
       JVal.vFalse) := by
  rw [execCommandM_not_guarded env command showUI value (by simp [hr])]
  simp [execPhase1, execPhase2, hb]

/-- Witness for C3 at a concrete input: with a bus that answers false to
beforeCommand, the whole trace is beforeCommand, afterCommand, sync. -/
theorem C3_beforeCommand_false_skips_execution_witness :
    execCommandM ⟨false, fun _ _ _ => JVal.vFalse,
        [("bold", [CustomCmd.fn JVal.vTrue])], fun _ => none⟩
      "bold" JVal.vFalse JVal.vNull =
      ([TEvent.beforeCommand "bold" JVal.vFalse JVal.vNull,
        TEvent.afterCommand "bold" JVal.vFalse JVal.vNull, TEvent.sync],
       JVal.vFalse) :=
  C3_beforeCommand_false_skips_execution
    ⟨false, fun _ _ _ => JVal.vFalse,
      [("bold", [CustomCmd.fn JVal.vTrue])], fun _ => none⟩
    "bold" JVal.vFalse JVal.vNull rfl rfl

/-- Helper: find? skips a prefix in which nothing matches. -/
theorem find?_append_none {α : Type} (p : α → Bool) (l1 l2 : List α)
    (h : l1.find? p = none) : (l1 ++ l2).find? p = l2.find? p := by
  induction l1 with
  | nil => rfl
  | cons x t ih =>
      rw [List.cons_append]
      cases hx : p x
      · rw [List.find?_cons_of_neg _ (by simp [hx])] at h ⊢
        exact ih h
      · rw [List.find?_cons_of_pos _ hx] at h
        cases h

/-- Helper: find? through the rewrite tableInsert performs on an existing
key. -/
theorem find?_tableInsert_map (t : CommandsTable) (name : String)
    (cmd : CustomCmd) :
    ∀ e, t.find? (fun e2 => e2.1 = name) = some e →
    (t.map (fun e2 => if e2.1 = name then (e2.1, e2.2 ++ [cmd]) else e2)
      ).find? (fun e2 => e2.1 = name) = some (e.1, e.2 ++ [cmd]) := by
  induction t with
  | nil => intro e h; cases h
  | cons x t ih =>
      intro e h
      by_cases hx : x.1 = name
      · rw [List.find?_cons_of_pos _ (by simp [hx])] at h
        cases h
        rw [List.map_cons, if_pos hx,
          List.find?_cons_of_pos _ (by simp [hx])]
      · rw [List.find?_cons_of_neg _ (by simp [hx])] at h
        rw [List.map_cons, if_neg hx,
          List.find?_cons_of_neg _ (by simp [hx])]
        exact ih e h

/-- Registration appends the handler to the list stored under the
lowercased name. -/
theorem lookupCommands_tableInsert (t : CommandsTable) (name : String)
    (cmd : CustomCmd) :
    lookupCommands (tableInsert t name cmd) name =
      some ((lookupCommands t name).getD [] ++ [cmd]) := by
  cases hf : List.find? (fun e => decide (e.1 = name)) t with
  | none =>
      have hlook : lookupCommands t name = none := by
        unfold lookupCommands
        rw [hf]
      unfold tableInsert
      rw [hlook]
      simp only []
      unfold lookupCommands
      rw [find?_append_none _ _ _ hf, List.find?_cons_of_pos _ (by simp)]
      rfl
  | some e =>
      have hlook : lookupCommands t name = some e.2 := by
        unfold lookupCommands
        rw [hf]
      unfold tableInsert
      rw [hlook]
      simp only []
      unfold lookupCommands
      rw [find?_tableInsert_map t name cmd e hf]
      rfl

/-- The commands table registerCommandM produces does not depend on the
handler shape. -/
theorem registerCommandM_table (cfg : String → Option (List String))
    (nk : String → String) (st : RegState) (nameOrig : String)
    (handler : CustomCmd) :
    (registerCommandM cfg nk st nameOrig handler).table =
      tableInsert st.table (jsToLower nameOrig) handler := by
  rcases handler with ⟨r⟩ | ⟨r, hk⟩
  · rfl
  · simp only [registerCommandM]
    split <;> rfl

/-- C4: handlers registered under a command name (lowercased at
registration) run in registration order, one invocation each, and the
collected result is the last handler return value that is not undefined;
registering "foo" and then calling execCommand with any spelling whose
lowercase form is "foo" on a non-readonly instance invokes the handler
exactly once; registration appends to the list kept under the lowercased
name, so list order is registration order. -/
theorem C4_handler_order_last_result (table : CommandsTable)
    (name : String) (hs : List CustomCmd)
    (h : lookupCommands table (jsToLower name) = some hs)
    (cfg : String → Option (List String)) (nk : String → String)
    (handler : CustomCmd) (env : ExecEnv) (showUI value : JVal) :
    execCustomCommandsM table name =
      ((List.range hs.length).map
        (fun i => TEvent.handlerInvoked (jsToLower name) i),
       lastNonUndef (hs.map CustomCmd.ret)) ∧
    (env.readonly = false →
      env.beforeCommand "foo" showUI value ≠ JVal.vFalse →
      env.commands = (registerCommandM cfg nk ⟨[], []⟩ "foo" handler).table →
      ∀ c : String, jsToLower c = "foo" →
        (execCommandM env c showUI value).1.filter isHandlerInvoked =
          [TEvent.handlerInvoked "foo" 0]) ∧
    (∀ (st : RegState) (nameOrig : String),
      lookupCommands (registerCommandM cfg nk st nameOrig handler).table
        (jsToLower nameOrig) =
        some ((lookupCommands st.table (jsToLower nameOrig)).getD [] ++
          [handler])) := by
  refine ⟨?_, ?_, ?_⟩
  · simp only [execCustomCommandsM, h]
    rw [runHandlers_spec]
    refine congrArg₂ Prod.mk ?_ ?_
    · simp
    · rw [foldl_eq_lastNonUndef]
      rfl
  · intro hr hb hcmds c hc
    have htab : (registerCommandM cfg nk ⟨[], []⟩ "foo" handler).table =
        [("foo", [handler])] := by
      rcases handler with ⟨r⟩ | ⟨r, hk⟩
      · rfl
      · simp only [registerCommandM]
        split <;> rfl
    have hexec : execCustomCommandsM [("foo", [handler])] "foo" =
        ([TEvent.handlerInvoked "foo" 0],
         if handler.ret ≠ JVal.vUndef then handler.ret else JVal.vUndef) :=
      rfl
    have hif : (if handler.ret ≠ JVal.vUndef then handler.ret
        else JVal.vUndef) = handler.ret := by
      by_cases hu : handler.ret = JVal.vUndef
      · simp [hu]
      · simp [hu]
    rw [execCommandM_not_guarded env c showUI value (by simp [hr]), hc]
    simp only [execPhase1, if_pos hb, hcmds, htab, hexec, hif]
    by_cases hretf : handler.ret = JVal.vFalse
    · simp [execPhase2, hretf, isHandlerInvoked]
    · rcases hn : env.native "foo" with _ | v <;>
        simp [execPhase2, hretf, hn, isHandlerInvoked]
  · intro st nameOrig
    rw [registerCommandM_table, lookupCommands_tableInsert]

/-- Witness for C4 at concrete inputs: two handlers run in order with the
last non-undefined value collected, and an uppercase execCommand call
invokes the single registered "foo" handler exactly once. -/
theorem C4_handler_order_last_result_witness :
    execCustomCommandsM
        [("foo", [CustomCmd.fn (JVal.vStr "a"), CustomCmd.fn JVal.vUndef])]
        "FOO" =
      ([TEvent.handlerInvoked "foo" 0, TEvent.handlerInvoked "foo" 1],
       JVal.vStr "a") ∧
    (execCommandM
        ⟨false, fun _ _ _ => JVal.vUndef,
          (registerCommandM (fun _ => none) (fun h => h) ⟨[], []⟩ "foo"
            (CustomCmd.fn JVal.vUndef)).table,
          fun _ => none⟩ "FOO" JVal.vFalse JVal.vNull).1.filter
      isHandlerInvoked = [TEvent.handlerInvoked "foo" 0] :=
  ⟨(C4_handler_order_last_result
      [("foo", [CustomCmd.fn (JVal.vStr "a"), CustomCmd.fn JVal.vUndef])]
      "FOO" [CustomCmd.fn (JVal.vStr "a"), CustomCmd.fn JVal.vUndef] rfl
      (fun _ => none) (fun h => h) (CustomCmd.fn JVal.vUndef)
      ⟨false, fun _ _ _ => JVal.vUndef, [], fun _ => none⟩
      JVal.vFalse JVal.vNull).1,
   (C4_handler_order_last_result [("x", [CustomCmd.fn JVal.vUndef])] "x"
      [CustomCmd.fn JVal.vUndef] rfl
      (fun _ => none) (fun h => h) (CustomCmd.fn JVal.vUndef)
      ⟨false, fun _ _ _ => JVal.vUndef,
        (registerCommandM (fun _ => none) (fun h => h) ⟨[], []⟩ "foo"
          (CustomCmd.fn JVal.vUndef)).table,
        fun _ => none⟩ JVal.vFalse JVal.vNull).2.1 rfl (by decide) rfl
     "FOO" rfl⟩

/-- C7 counterexample: a hotkey mapping exists in the configuration keyed
by the command name, yet registerCommand with a plain function handler
binds nothing, because the binding step only runs for non-function
handlers. -/
theorem C7_plain_function_hotkey_counterexample :
    (fun n => if n = "foo" then some ["ctrl+b"] else none) "foo" =
      some ["ctrl+b"] ∧
    (registerCommandM
      (fun n => if n = "foo" then some ["ctrl+b"] else none)
      (fun h => h) ⟨[], []⟩ "foo" (CustomCmd.fn JVal.vUndef)).bindings =
      [] := by
  constructor
  · rfl
  · rfl

/-- C7 amended: hotkeys are bound only when the handler is an object with
an exec field (a plain function handler is never bound, even when a
configuration mapping exists); for an object handler, the hotkeys
resolved from the configuration keyed by the lowercased name, then the
original name, then the declared hotkeys are each bound so that pressing
them invokes execCommand on the lowercased command name. -/
theorem C7_hotkey_binding_amended (cfg : String → Option (List String))
    (nk : String → String) (nameOrig : String) (ret : JVal)
    (declared : Option (List String)) (hks : List String) (hkey : String)
    (hres : ((cfg (jsToLower nameOrig)).orElse
        (fun _ => (cfg nameOrig).orElse (fun _ => declared))) = some hks)
    (hmem : hkey ∈ hks) (env : ExecEnv) :
    (nk hkey ++ ".hotkey", jsToLower nameOrig) ∈
      (registerCommandM cfg nk ⟨[], []⟩ nameOrig
        (CustomCmd.obj ret declared)).bindings ∧
    fireBoundHotkey env
        (registerCommandM cfg nk ⟨[], []⟩ nameOrig
          (CustomCmd.obj ret declared)).bindings
        (nk hkey ++ ".hotkey") =
      execCommandM env (jsToLower nameOrig) ∧
    (∀ r : JVal,
      (registerCommandM cfg nk ⟨[], []⟩ nameOrig
        (CustomCmd.fn r)).bindings = []) := by
  have hbind : (registerCommandM cfg nk ⟨[], []⟩ nameOrig
      (CustomCmd.obj ret declared)).bindings =
      hks.map (fun hk =>
        (nk hk ++ ".hotkey", jsToLower nameOrig)) := by
    simp only [registerCommandM, hres]
    simp [registerHotkeyToCommandM]
  refine ⟨?_, ?_, fun r => rfl⟩
  · rw [hbind]
    exact List.mem_map_of_mem _ hmem
  · rw [hbind]
    unfold fireBoundHotkey
    rcases hf : (hks.map (fun hk =>
        (nk hk ++ ".hotkey", jsToLower nameOrig))).find?
        (fun b => b.1 = nk hkey ++ ".hotkey") with _ | b
    · rw [List.find?_eq_none] at hf
      exact absurd (by simp)
        (hf (nk hkey ++ ".hotkey", jsToLower nameOrig)
          (List.mem_map_of_mem _ hmem))
    · have hbmem := List.mem_of_find?_eq_some hf
      obtain ⟨hk0, _, hbeq⟩ := List.mem_map.mp hbmem
      rw [hf, ← hbeq]

/-- Witness for C7 amended at concrete inputs: an object handler with a
declared hotkey gets the normalized binding targeting the lowercased
name, and pressing it runs execCommand("foo"). -/
theorem C7_hotkey_binding_amended_witness :
    ("ctrl+b.hotkey", "foo") ∈
      (registerCommandM (fun _ => none) (fun h => h) ⟨[], []⟩ "FOO"
        (CustomCmd.obj JVal.vUndef (some ["ctrl+b"]))).bindings ∧
    fireBoundHotkey
        ⟨false, fun _ _ _ => JVal.vUndef, [], fun _ => none⟩
        (registerCommandM (fun _ => none) (fun h => h) ⟨[], []⟩ "FOO"
          (CustomCmd.obj JVal.vUndef (some ["ctrl+b"]))).bindings
        "ctrl+b.hotkey" =
      execCommandM ⟨false, fun _ _ _ => JVal.vUndef, [], fun _ => none⟩
        "foo" :=
  ⟨(C7_hotkey_binding_amended (fun _ => none) (fun h => h) "FOO"
      JVal.vUndef (some ["ctrl+b"]) ["ctrl+b"] "ctrl+b" rfl (by decide)
      ⟨false, fun _ _ _ => JVal.vUndef, [], fun _ => none⟩).1,
   (C7_hotkey_binding_amended (fun _ => none) (fun h => h) "FOO"
      JVal.vUndef (some ["ctrl+b"]) ["ctrl+b"] "ctrl+b" rfl (by decide)
      ⟨false, fun _ _ _ => JVal.vUndef, [], fun _ => none⟩).2.1⟩

end Jodit
